import Mathlib

/-!
Verification development for the job-scheduler subsystem of the
TCG-Shopify-Plugin repository (Fastify backend).

The embedding covers, shallowly and executably:
  * `src/services/scheduler.service.ts` — the `SchedulerService` class:
    `scheduleJob`, `unscheduleJob`, `runJobNow`, `updateJobSchedule`,
    `initializeJobsFromDatabase` (embedded as `initJobsFromDatabase`),
    the `createJob` execution wrapper, and `calculateNextCronRun`;
  * `src/services/database/methods/schedule.ts` — `parseScheduleRow`,
    `getAllSchedules`, `getScheduleByName`, `updateSchedule`,
    `createSchedule`, `deleteSchedule`;
  * `src/routes/v1/scheduler/scheduler.ts` — the POST /schedules and
    DELETE /schedules/:name handlers.

Modelling conventions:
  * Instants (`new Date()`) are natural numbers counting seconds; adding
    h hours via `setHours(getHours() + h)` is adding `h * 3600` seconds
    (the calendar-free reading both the source comments and the spec use).
  * Asynchronous database calls are pure state transformers; handler
    invocations are parametrised by their outcome (`Except String Unit`,
    an exception carrying `error.message`).
  * JS objects read off JSON columns are `JsObj` records of the optional
    fields the scheduler ever accesses; the unchecked TS casts
    (`config as IntervalConfig`) become field projections.
-/

/-- Run status of a schedule's `last_run` / `next_run` record
(`'completed' | 'failed' | 'pending'` in `scheduler.types.ts`). -/
inductive RunStatus
  | completed
  | failed
  | pending
deriving DecidableEq, Repr

/-- `JobRunInfo` from `scheduler.types.ts`. All fields are optional here
because at runtime the value can be the `{}` fallback produced by
`safeJsonParse`; values written by the scheduler always set `time` and
`status`. -/
structure JobRunInfo where
  time : Option Nat
  status : Option RunStatus
  error : Option String
  estimated : Option Bool
deriving DecidableEq, Repr

/-- `IntervalConfig` from `scheduler.types.ts`: optional day/hour/minute/second
units plus the `runImmediately` flag. -/
structure IntervalConfig where
  days : Option Nat
  hours : Option Nat
  minutes : Option Nat
  seconds : Option Nat
  runImmediately : Option Bool
deriving DecidableEq, Repr

/-- `CronConfig` from `scheduler.types.ts` as it exists at runtime: the
`expression` property of a JS object, which is absent (`none`) when the
config blob does not actually carry one. -/
structure CronConfig where
  expression : Option String
deriving DecidableEq, Repr

/-- The `type` discriminant of a schedule after `parseScheduleRow` has
narrowed it to `'interval' | 'cron'`. -/
inductive ScheduleType
  | interval
  | cron
deriving DecidableEq, Repr

/-- A JS object as the scheduler sees a parsed `config` JSON blob: exactly
the properties any code path reads. Unchecked TS casts to
`IntervalConfig` / `CronConfig` are projections of this record. -/
structure JsObj where
  days : Option Nat
  hours : Option Nat
  minutes : Option Nat
  seconds : Option Nat
  runImmediately : Option Bool
  expression : Option String
deriving DecidableEq, Repr

/-- The empty JS object `{}` (the `safeJsonParse` fallback value). -/
def JsObj.empty : JsObj :=
  ⟨none, none, none, none, none, none⟩

/-- The TS cast `config as IntervalConfig` (property projection). -/
def JsObj.asInterval (o : JsObj) : IntervalConfig :=
  ⟨o.days, o.hours, o.minutes, o.seconds, o.runImmediately⟩

/-- The TS cast `config as CronConfig` (property projection). -/
def JsObj.asCron (o : JsObj) : CronConfig :=
  ⟨o.expression⟩

/-- A `JsObj` holding only interval units, as written by the scheduler
(e.g. the default `{ hours: 24 }` config). -/
def JsObj.ofInterval (c : IntervalConfig) : JsObj :=
  ⟨c.days, c.hours, c.minutes, c.seconds, c.runImmediately, none⟩

/-- A `JsObj` holding a cron expression. -/
def JsObj.ofCron (c : CronConfig) : JsObj :=
  ⟨none, none, none, none, none, c.expression⟩

/-- Seconds in a day / hour / minute. -/
def secsPerDay : Nat := 86400

/-- Seconds in an hour. -/
def secsPerHour : Nat := 3600

/-- Seconds in a minute. -/
def secsPerMinute : Nat := 60

/-- Interval next-run computation, shared verbatim by
`SchedulerService.createJob` (lines 214-224) and
`SchedulerService.updateJobSchedule` (lines 508-518):

```
const nextRun = new Date()
if (intervalConfig.days)    nextRun.setDate(nextRun.getDate() + days)
if (intervalConfig.hours)   nextRun.setHours(nextRun.getHours() + hours)
if (intervalConfig.minutes) nextRun.setMinutes(... + minutes)
if (intervalConfig.seconds) nextRun.setSeconds(... + seconds)
```

The JS truthiness guard skips a unit that is absent or zero. -/
def intervalNextRun (c : IntervalConfig) (now : Nat) : Nat :=
  let t := now
  let t := match c.days with
    | some d => if d = 0 then t else t + d * secsPerDay
    | none => t
  let t := match c.hours with
    | some h => if h = 0 then t else t + h * secsPerHour
    | none => t
  let t := match c.minutes with
    | some m => if m = 0 then t else t + m * secsPerMinute
    | none => t
  match c.seconds with
    | some s => if s = 0 then t else t + s
    | none => t

/-- Modelled from the spec (section 4.3, cron evaluator as external
collaborator; the source wraps the `cron-parser` npm library, which is not
part of this repository): a parsed 5-field cron expression restricted to
the subset this model evaluates — numeric-or-star minute and hour fields
with the day, month and weekday fields all `*`. `none` means `*`.
Expressions outside this subset are treated as unparseable. -/
structure CronExpr where
  minute : Option Nat
  hour : Option Nat
deriving DecidableEq, Repr

/-- Splits a character list on single spaces (the semantics of
`"...".split(' ')` on the expression string), accumulating the current
field in reverse. -/
def splitFields : List Char → List Char → List (List Char)
  | [], acc => [acc.reverse]
  | c :: rest, acc =>
    if c = ' ' then acc.reverse :: splitFields rest []
    else splitFields rest (c :: acc)

/-- Accumulator for decimal parsing; fails on any non-digit character. -/
def charsToNatAux : List Char → Nat → Option Nat
  | [], acc => some acc
  | c :: rest, acc =>
    if '0' ≤ c ∧ c ≤ '9' then charsToNatAux rest (acc * 10 + (c.toNat - 48))
    else none

/-- Parses a nonempty all-digit character list as a decimal number. -/
def charsToNat (cs : List Char) : Option Nat :=
  match cs with
  | [] => none
  | _ :: _ => charsToNatAux cs 0

/-- Parses one cron field: `*`, or a decimal value below `bound`. -/
def cronField (cs : List Char) (bound : Nat) : Option (Option Nat) :=
  if cs = ['*'] then some none
  else match charsToNat cs with
    | some n => if n < bound then some (some n) else none
    | none => none

/-- Modelled from the spec (section 4.3): `CronExpressionParser.parse`,
restricted to the subset described at `CronExpr`. Returns `none` where the
library would raise a parse error. -/
def cronParse (s : String) : Option CronExpr :=
  match splitFields s.data [] with
  | [mi, h, dom, mon, dow] =>
    if dom = ['*'] ∧ mon = ['*'] ∧ dow = ['*'] then
      match cronField mi 60, cronField h 24 with
      | some m, some hh => some ⟨m, hh⟩
      | _, _ => none
    else none
  | _ => none

/-- Whether minute index `b` (minutes since epoch) matches the minute and
hour fields of `e`. -/
def CronExpr.matchesMinute (e : CronExpr) (b : Nat) : Bool :=
  (match e.minute with
    | none => true
    | some m => b % 60 = m)
  && (match e.hour with
    | none => true
    | some h => b / 60 % 24 = h)

/-- Whether instant `t` (seconds) is an occurrence of `e`: cron fires on
whole minutes whose minute-of-hour and hour-of-day match. -/
def CronExpr.matchesAt (e : CronExpr) (t : Nat) : Bool :=
  t % 60 = 0 && e.matchesMinute (t / 60)

/-- Linear search for the first index at or after `s` (within `k` steps)
satisfying `p`. -/
def searchFirst (p : Nat → Bool) : Nat → Nat → Option Nat
  | _, 0 => none
  | s, k + 1 => if p s then some s else searchFirst p (s + 1) k

/-- `SchedulerService.calculateNextCronRun` (lines 633-648): parse the
expression against the current date and take the next occurrence; on any
error (including a missing expression, i.e. `parse(undefined)`), fall back
to now + 24 hours after logging a warning. An expression in the model's
parseable subset always has an occurrence within the next 1441 minutes, so
the inner fallback arm of the search is dead code (proved below). -/
def calculateNextCronRun (expression : Option String) (now : Nat) : Nat :=
  match expression with
  | some s =>
    match cronParse s with
    | some e =>
      match searchFirst e.matchesMinute (now / 60 + 1) 1441 with
      | some b => b * 60
      | none => now + 24 * secsPerHour
    | none => now + 24 * secsPerHour
  | none => now + 24 * secsPerHour

/-- `DbSchedule` from `scheduler.types.ts` after `parseScheduleRow`: the
`type` discriminant is narrowed, the `config` blob is the parsed JS object
(still untyped — the discriminated-union cast in TS is unchecked). -/
structure DbSchedule where
  id : Nat
  name : String
  type : ScheduleType
  config : JsObj
  enabled : Bool
  last_run : Option JobRunInfo
  next_run : Option JobRunInfo
  created_at : Nat
  updated_at : Nat
deriving DecidableEq, Repr

/-- The `schedules` table plus the sequence behind its numeric primary key. -/
structure DbState where
  rows : List DbSchedule
  nextId : Nat
deriving DecidableEq, Repr

/-- `getScheduleByName` from `database/methods/schedule.ts`: first row with
the given name, `null` when absent. -/
def getScheduleByName (db : DbState) (name : String) : Option DbSchedule :=
  db.rows.find? (fun r => r.name == name)

/-- The partial update record accepted by `updateSchedule`
(`Partial<Omit<DbSchedule, 'id' | 'name' | 'created_at' | 'updated_at'>>`);
`last_run` / `next_run` are nullable, so a present update can itself be
`none` (SQL NULL). -/
structure ScheduleUpdates where
  config : Option JsObj
  enabled : Option Bool
  last_run : Option (Option JobRunInfo)
  next_run : Option (Option JobRunInfo)
  type : Option ScheduleType
deriving DecidableEq, Repr

/-- An empty update record (no fields present). -/
def ScheduleUpdates.empty : ScheduleUpdates :=
  ⟨none, none, none, none, none⟩

/-- Applies a partial update to a row, refreshing `updated_at` — the row
mutation performed by `updateSchedule`'s `knex(...).update(updateData)`. -/
def applyUpd (u : ScheduleUpdates) (now : Nat) (r : DbSchedule) : DbSchedule :=
  { r with
    config := u.config.getD r.config
    enabled := u.enabled.getD r.enabled
    last_run := u.last_run.getD r.last_run
    next_run := u.next_run.getD r.next_run
    type := u.type.getD r.type
    updated_at := now }

/-- `updateSchedule` from `database/methods/schedule.ts`: updates every row
whose `name` matches and reports whether the updated row count was
positive. -/
def updateSchedule (db : DbState) (name : String) (u : ScheduleUpdates) (now : Nat) :
    Bool × DbState :=
  let updated := db.rows.countP (fun r => r.name == name)
  (decide (0 < updated),
   ⟨db.rows.map (fun r => if r.name == name then applyUpd u now r else r), db.nextId⟩)

/-- The argument of `createSchedule`
(`Omit<DbSchedule, 'id' | 'created_at' | 'updated_at'>`). -/
structure NewSchedule where
  name : String
  type : ScheduleType
  config : JsObj
  enabled : Bool
  last_run : Option JobRunInfo
  next_run : Option JobRunInfo
deriving DecidableEq, Repr

/-- `createSchedule` from `database/methods/schedule.ts`: inserts the row
with fresh timestamps and returns the generated id. -/
def createSchedule (db : DbState) (s : NewSchedule) (now : Nat) : Nat × DbState :=
  (db.nextId,
   ⟨db.rows ++ [⟨db.nextId, s.name, s.type, s.config, s.enabled, s.last_run,
      s.next_run, now, now⟩],
    db.nextId + 1⟩)

/-- `deleteSchedule` from `database/methods/schedule.ts`: deletes every row
whose `name` matches and reports whether the deleted count was positive. -/
def deleteSchedule (db : DbState) (name : String) : Bool × DbState :=
  let deleted := db.rows.countP (fun r => r.name == name)
  (decide (0 < deleted),
   ⟨db.rows.filter (fun r => !(r.name == name)), db.nextId⟩)

/-- A live trigger object as built by `SchedulerService.createJob`
(a `SimpleIntervalJob` or `CronJob` carrying the config it was built
from). -/
structure Trigger where
  type : ScheduleType
  config : JsObj
deriving DecidableEq, Repr

/-- An entry of the `jobs` map: the trigger (or `null`) and the registered
handler, the latter modelled as an opaque reference. -/
structure JobEntry where
  job : Option Trigger
  handler : Nat
deriving DecidableEq, Repr

/-- The in-memory `jobs` registry (`Map<string, {job, handler}>`). -/
abbrev Registry : Type := List (String × JobEntry)

/-- `Map.get`. -/
def regGet (reg : Registry) (name : String) : Option JobEntry :=
  (reg.find? (fun p => p.1 == name)).map (fun p => p.2)

/-- `Map.set`: replace in place when present, append when absent. -/
def regSet (reg : Registry) (name : String) (e : JobEntry) : Registry :=
  if reg.any (fun p => p.1 == name) then
    reg.map (fun p => if p.1 == name then (name, e) else p)
  else reg ++ [(name, e)]

/-- `Map.delete`. -/
def regDelete (reg : Registry) (name : String) : Registry :=
  reg.filter (fun p => !(p.1 == name))

/-- Run status recorded for a handler outcome (`completed` on a resolved
promise, `failed` on a throw). -/
def outcomeStatus (outcome : Except String Unit) : RunStatus :=
  match outcome with
  | .ok _ => .completed
  | .error _ => .failed

/-- Error message recorded for a handler outcome
(`error instanceof Error ? error.message : String(error)` on a throw). -/
def outcomeError (outcome : Except String Unit) : Option String :=
  match outcome with
  | .ok _ => none
  | .error msg => some msg

/-- Whether a handler outcome is a success. -/
def outcomeOk (outcome : Except String Unit) : Bool :=
  match outcome with
  | .ok _ => true
  | .error _ => false

/-- The body of the `AsyncTask` built by `SchedulerService.createJob`
(lines 197-260), run on each trigger fire with the handler's outcome:
on success, persist `last_run = completed` and then compute and persist
`next_run` from the job's config (interval arithmetic or next cron
occurrence); on a throw, persist `last_run = failed` with the error
message and leave `next_run` alone. -/
def runScheduledTask (type : ScheduleType) (config : JsObj) (name : String)
    (outcome : Except String Unit) (now : Nat) (db : DbState) : DbState :=
  match outcome with
  | .ok _ =>
    let db1 := (updateSchedule db name
      ⟨none, none, some (some ⟨some now, some .completed, none, none⟩), none, none⟩ now).2
    let nextRun : Nat :=
      match type with
      | .interval => intervalNextRun config.asInterval now
      | .cron => calculateNextCronRun config.asCron.expression now
    (updateSchedule db1 name
      ⟨none, none, none, some (some ⟨some nextRun, some .pending, none, some true⟩), none⟩ now).2
  | .error msg =>
    (updateSchedule db name
      ⟨none, none, some (some ⟨some now, some .failed, some msg, none⟩), none, none⟩ now).2

/-- The scheduler service's full state: the persistent store and the
in-memory job registry. -/
structure SchedState where
  db : DbState
  jobs : Registry
deriving DecidableEq, Repr

/-- The freshly constructed service over an empty store. -/
def SchedState.initial : SchedState :=
  ⟨⟨[], 1⟩, []⟩

/-- The default interval config `{ hours: 24 }` used when `scheduleJob`
finds no existing schedule. -/
def defaultIntervalConfig : JsObj :=
  JsObj.ofInterval ⟨none, some 24, none, none, none⟩

/-- `SchedulerService.scheduleJob` (lines 306-400): save the handler
reference (keeping any existing trigger), auto-create a default 24-hour
interval schedule when none exists (with `next_run` computed immediately),
and install a trigger when the schedule is enabled. -/
def scheduleJob (st : SchedState) (name : String) (handler : Nat) (now : Nat) :
    Bool × SchedState :=
  let existingJob := regGet st.jobs name
  let jobs1 := match existingJob with
    | some e => regSet st.jobs name ⟨e.job, handler⟩
    | none => regSet st.jobs name ⟨none, handler⟩
  let sched0 := getScheduleByName st.db name
  let step : DbState × Option DbSchedule := match sched0 with
    | some s => (st.db, some s)
    | none =>
      let nextRun := now + 24 * secsPerHour
      let db1 := (createSchedule st.db
        ⟨name, .interval, defaultIntervalConfig, true, none,
         some ⟨some nextRun, some .pending, none, some true⟩⟩ now).2
      (db1, getScheduleByName db1 name)
  let db1 := step.1
  match step.2 with
  | some s =>
    if s.enabled then
      (true, ⟨db1, regSet jobs1 name ⟨some ⟨s.type, s.config⟩, handler⟩⟩)
    else (true, ⟨db1, jobs1⟩)
  | none => (true, ⟨db1, jobs1⟩)

/-- `SchedulerService.unscheduleJob` (lines 408-422): remove the trigger
and the whole registry entry (handler included); `false` when the name was
not registered. The persisted row is not touched. -/
def unscheduleJob (st : SchedState) (name : String) : Bool × SchedState :=
  match regGet st.jobs name with
  | some _ => (true, ⟨st.db, regDelete st.jobs name⟩)
  | none => (false, st)

/-- `SchedulerService.runJobNow` (lines 430-466): invoke the handler
directly when registered, then persist only `last_run` with the outcome;
`false` when no entry exists or the handler threw. -/
def runJobNow (st : SchedState) (name : String) (outcome : Except String Unit)
    (now : Nat) : Bool × SchedState :=
  match regGet st.jobs name with
  | none => (false, st)
  | some _ =>
    (outcomeOk outcome,
     ⟨(updateSchedule st.db name
        ⟨none, none,
         some (some ⟨some now, some (outcomeStatus outcome), outcomeError outcome, none⟩),
         none, none⟩ now).2,
      st.jobs⟩)

/-- `SchedulerService.updateJobSchedule` (lines 476-609): persist the new
config/enabled flag together with a freshly computed `next_run`, then
rebuild, install or tear down the trigger according to the old and new
`enabled` values. -/
def updateJobSchedule (st : SchedState) (name : String) (config : Option JsObj)
    (enabled : Option Bool) (now : Nat) : Bool × SchedState :=
  match getScheduleByName st.db name with
  | none => (false, st)
  | some schedule =>
    let configToUse := config.getD schedule.config
    let typeToUse := schedule.type
    let nextRun : Nat :=
      match typeToUse with
      | .interval => intervalNextRun configToUse.asInterval now
      | .cron => calculateNextCronRun configToUse.asCron.expression now
    let updates : ScheduleUpdates :=
      ⟨config, enabled, none, some (some ⟨some nextRun, some .pending, none, some true⟩), none⟩
    let db1 := (updateSchedule st.db name updates now).2
    match regGet st.jobs name with
    | none => (true, ⟨db1, st.jobs⟩)
    | some jobData =>
      if schedule.enabled ∧ (enabled = none ∨ enabled = some true) then
        match getScheduleByName db1 name with
        | none => (false, ⟨db1, st.jobs⟩)
        | some upd =>
          (true, ⟨db1, regSet st.jobs name ⟨some ⟨upd.type, upd.config⟩, jobData.handler⟩⟩)
      else if ¬schedule.enabled ∧ enabled = some true then
        match getScheduleByName db1 name with
        | none => (false, ⟨db1, st.jobs⟩)
        | some upd =>
          (true, ⟨db1, regSet st.jobs name ⟨some ⟨upd.type, upd.config⟩, jobData.handler⟩⟩)
      else if schedule.enabled ∧ enabled = some false then
        (true, ⟨db1, regSet st.jobs name ⟨none, jobData.handler⟩⟩)
      else (true, ⟨db1, st.jobs⟩)

/-- `SchedulerService.initializeJobsFromDatabase` (lines 92-179): for each
persisted schedule that is enabled and already has a registered handler,
build and install a trigger; all other schedules are left as they are.
Renamed for the embedding. -/
def initJobsFromDatabase (st : SchedState) : SchedState :=
  ⟨st.db,
   st.db.rows.foldl (fun jobs schedule =>
     match regGet jobs schedule.name with
     | some entry =>
       if schedule.enabled then
         regSet jobs schedule.name ⟨some ⟨schedule.type, schedule.config⟩, entry.handler⟩
       else jobs
     | none => jobs) st.jobs⟩

/-- HTTP outcome of a scheduler route handler. -/
inductive RouteResult
  | ok (message : String)
  | notFound (message : String)
  | serverError (message : String)
deriving DecidableEq, Repr

/-- The DELETE /schedules/:name handler from
`routes/v1/scheduler/scheduler.ts` (lines 235-289): 404 when the row is
absent; otherwise unschedule the job, delete the row, 500 when the delete
reported no rows. -/
def deleteScheduleRoute (st : SchedState) (name : String) : RouteResult × SchedState :=
  match getScheduleByName st.db name with
  | none => (.notFound "Schedule not found", st)
  | some _ =>
    let st1 := (unscheduleJob st name).2
    let res := deleteSchedule st1.db name
    if res.1 then (.ok "Schedule deleted", ⟨res.2, st1.jobs⟩)
    else (.serverError "Failed to delete schedule", ⟨res.2, st1.jobs⟩)

/-- The POST /schedules body after zod validation
(`ScheduleConfigSchema`): `enabled` has already received its default
`true` when omitted. -/
structure ScheduleConfigBody where
  name : String
  type : ScheduleType
  config : JsObj
  enabled : Bool
deriving DecidableEq, Repr

/-- The POST /schedules handler from `routes/v1/scheduler/scheduler.ts`
(lines 90-169): update through the scheduler when a row exists; otherwise
insert a fresh row with `last_run` and `next_run` both null. -/
def postSchedulesRoute (st : SchedState) (body : ScheduleConfigBody) (now : Nat) :
    RouteResult × SchedState :=
  match getScheduleByName st.db body.name with
  | some _ =>
    let res := updateJobSchedule st body.name (some body.config) (some body.enabled) now
    if res.1 then (.ok "Schedule updated", res.2)
    else (.serverError "Failed to update schedule", res.2)
  | none =>
    let db1 := (createSchedule st.db
      ⟨body.name, body.type, body.config, body.enabled, none, none⟩ now).2
    (.ok "Schedule created", ⟨db1, st.jobs⟩)

/-- A raw JSON column value as the driver hands it to `parseScheduleRow`:
a string that parses (and is then cast unchecked), a string that fails
`JSON.parse`, or an already-deserialized object. -/
inductive JsonField (α : Type)
  | strOk (a : α)
  | strBad (raw : String)
  | already (a : α)
deriving DecidableEq, Repr

/-- The `typeof x === 'string' ? safeJsonParse(x, fallback) : x as T`
dispatch used for each JSON column in `parseScheduleRow`, with
`DatabaseService.safeJsonParse` returning the fallback on a parse
error. -/
def readJsonCol {α : Type} (v : JsonField α) (fallback : α) : α :=
  match v with
  | .strOk a => a
  | .strBad _ => fallback
  | .already a => a

/-- The `{} as JobRunInfo` fallback value. -/
def emptyRunInfo : JobRunInfo :=
  ⟨none, none, none, none⟩

/-- A raw row of the `schedules` table as seen by `parseScheduleRow`. -/
structure RawScheduleRow where
  id : Nat
  name : String
  type : String
  config : JsonField JsObj
  enabled : Bool
  last_run : Option (JsonField JobRunInfo)
  next_run : Option (JsonField JobRunInfo)
  created_at : Nat
  updated_at : Nat
deriving DecidableEq, Repr

/-- `parseScheduleRow` from `database/methods/schedule.ts` (lines 17-88):
read the JSON columns with `{}` fallbacks, then narrow on the `type`
string; an unknown type yields `null` (the row is dropped by the caller).
The surrounding `try/catch` is unreachable because `safeJsonParse` already
catches. -/
def parseScheduleRow (row : RawScheduleRow) : Option DbSchedule :=
  let last_run := row.last_run.map (fun v => readJsonCol v emptyRunInfo)
  let next_run := row.next_run.map (fun v => readJsonCol v emptyRunInfo)
  let config := readJsonCol row.config JsObj.empty
  match row.type with
  | "interval" => some ⟨row.id, row.name, .interval, config, row.enabled,
      last_run, next_run, row.created_at, row.updated_at⟩
  | "cron" => some ⟨row.id, row.name, .cron, config, row.enabled,
      last_run, next_run, row.created_at, row.updated_at⟩
  | _ => none

/-- `getAllSchedules` from `database/methods/schedule.ts` (lines 97-110):
parse every row, dropping the unparseable ones; an empty list on a query
error. -/
def getAllSchedules (queryResult : Except String (List RawScheduleRow)) :
    List DbSchedule :=
  match queryResult with
  | .error _ => []
  | .ok rows => rows.filterMap parseScheduleRow

/-- States reachable by any sequence of the four scheduler operations
named in the invariant claim, starting from the freshly constructed
service over an empty store. -/
inductive Reachable : SchedState → Prop
  | init : Reachable SchedState.initial
  | schedule (st : SchedState) (name : String) (handler now : Nat) :
      Reachable st → Reachable (scheduleJob st name handler now).2
  | update (st : SchedState) (name : String) (config : Option JsObj)
      (enabled : Option Bool) (now : Nat) :
      Reachable st → Reachable (updateJobSchedule st name config enabled now).2
  | unschedule (st : SchedState) (name : String) :
      Reachable st → Reachable (unscheduleJob st name).2
  | initdb (st : SchedState) :
      Reachable st → Reachable (initJobsFromDatabase st)

/-- The state predicate of the invariant claim: every persisted schedule
with `enabled=false` has no active trigger (registry entry absent or its
`job` null). -/
def DisabledNoTrigger (st : SchedState) : Prop :=
  ∀ r ∈ st.db.rows, r.enabled = false →
    ∀ e, regGet st.jobs r.name = some e → e.job = none

/-- Auxiliary invariant: schedule names are unique across the store (the
table's unique constraint, maintained by the operations themselves). -/
def NamesNodup (st : SchedState) : Prop :=
  (st.db.rows.map (fun r => r.name)).Nodup

/-- Whether the named schedule's `last_run` records a failure carrying a
present, non-empty error message (the property the failure claim
asserts). -/
def failedWithNonEmptyError (db : DbState) (name : String) : Bool :=
  match getScheduleByName db name with
  | some r =>
    match r.last_run with
    | some info =>
      info.status == some .failed && !(info.error == none) && !(info.error == some "")
    | none => false
  | none => false

/- ===== end of definitions marker: service-layer definitions are inserted
above this line, theorems below ===== -/

theorem searchFirst_some (p : Nat → Bool) :
    ∀ k s r, searchFirst p s k = some r →
      p r = true ∧ s ≤ r ∧ r < s + k ∧ ∀ u, s ≤ u → u < r → p u = false := by
  intro k
  induction k with
  | zero => intro s r h; simp [searchFirst] at h
  | succ n ih =>
    intro s r h
    by_cases hp : p s = true
    · simp [searchFirst, hp] at h
      subst h
      exact ⟨hp, Nat.le_refl _, by omega, fun u hsu hur => by omega⟩
    · simp [searchFirst, hp] at h
      obtain ⟨hr, hsr, hlt, hmin⟩ := ih (s + 1) r h
      refine ⟨hr, by omega, by omega, ?_⟩
      intro u hsu hur
      by_cases hu : u = s
      · subst hu
        exact Bool.eq_false_iff.mpr hp
      · exact hmin u (by omega) hur

theorem searchFirst_isSome (p : Nat → Bool) :
    ∀ k s u, s ≤ u → u < s + k → p u = true → (searchFirst p s k).isSome := by
  intro k
  induction k with
  | zero => intro s u h1 h2; omega
  | succ n ih =>
    intro s u h1 h2 hp
    by_cases hs : p s = true
    · simp [searchFirst, hs]
    · simp [searchFirst, hs]
      have hne : u ≠ s := by
        intro he; subst he; exact hs hp
      exact ih (s + 1) u (by omega) (by omega) hp

/-- Bounds guaranteed by `cronParse`: a parsed minute field is below 60 and
a parsed hour field below 24. -/
theorem cronParse_valid (s : String) (e : CronExpr) (h : cronParse s = some e) :
    (∀ m, e.minute = some m → m < 60) ∧ ∀ hh, e.hour = some hh → hh < 24 := by
  unfold cronParse at h
  rcases hsplit : splitFields s.data [] with _ | ⟨mi, _ | ⟨ho, _ | ⟨dom, _ | ⟨mon, _ | ⟨dow, _ | _⟩⟩⟩⟩⟩ <;>
    simp [hsplit] at h
  obtain ⟨-, h⟩ := h
  rcases hmi : cronField mi 60 with _ | m <;> simp [hmi] at h
  rcases hho : cronField ho 24 with _ | hh <;> simp [hho] at h
  subst h
  constructor
  · intro m' hm'
    simp at hm'
    subst hm'
    unfold cronField at hmi
    by_cases h1 : mi = ['*']
    · simp [h1] at hmi
    · simp [h1] at hmi
      rcases h2 : charsToNat mi with _ | n <;> simp [h2] at hmi
      by_cases h3 : n < 60
      · simp [h3] at hmi
        omega
      · simp [h3] at hmi
  · intro h' hh'
    simp at hh'
    subst hh'
    unfold cronField at hho
    by_cases h1 : ho = ['*']
    · simp [h1] at hho
    · simp [h1] at hho
      rcases h2 : charsToNat ho with _ | n <;> simp [h2] at hho
      by_cases h3 : n < 24
      · simp [h3] at hho
        omega
      · simp [h3] at hho

/-- A cron expression with in-range fields has a matching minute in any
window of 1441 consecutive minute indices. -/
theorem cronExpr_exists_match (e : CronExpr)
    (hm : ∀ m, e.minute = some m → m < 60)
    (hh : ∀ h, e.hour = some h → h < 24) (base : Nat) :
    ∃ b, base ≤ b ∧ b < base + 1441 ∧ e.matchesMinute b = true := by
  rcases e with ⟨mi, ho⟩
  rcases mi with _ | m <;> rcases ho with _ | h
  · exact ⟨base, Nat.le_refl _, by omega, by simp [CronExpr.matchesMinute]⟩
  · -- minute *, hour h: first minute index ≡ 60*h (mod 1440) at or after base
    have hh' : h < 24 := hh h rfl
    refine ⟨base + (60 * h + 1440 - base % 1440) % 1440, by omega, by omega, ?_⟩
    simp [CronExpr.matchesMinute]
    omega
  · -- minute m, hour *: first minute index ≡ m (mod 60) at or after base
    have hm' : m < 60 := hm m rfl
    refine ⟨base + (m + 60 - base % 60) % 60, by omega, by omega, ?_⟩
    simp [CronExpr.matchesMinute]
    omega
  · -- both fixed: first minute index ≡ 60*h + m (mod 1440) at or after base
    have hm' : m < 60 := hm m rfl
    have hh' : h < 24 := hh h rfl
    refine ⟨base + (60 * h + m + 1440 - base % 1440) % 1440, by omega, by omega, ?_⟩
    simp [CronExpr.matchesMinute]
    constructor <;> omega

/-- Auxiliary characterization of `calculateNextCronRun` on a present
expression string: parse failure falls back to now + 24h; parse success
returns the first matching instant strictly after `now`. -/
theorem calcNextCronRun_char (s : String) (now : Nat) :
    (cronParse s = none → calculateNextCronRun (some s) now = now + 24 * secsPerHour) ∧
    ∀ e, cronParse s = some e →
      now < calculateNextCronRun (some s) now ∧
      e.matchesAt (calculateNextCronRun (some s) now) = true ∧
      ∀ u, now < u → u < calculateNextCronRun (some s) now → e.matchesAt u = false := by
  constructor
  · intro hnone
    simp [calculateNextCronRun, hnone]
  · intro e he
    obtain ⟨hm, hh⟩ := cronParse_valid s e he
    obtain ⟨b, hb1, hb2, hb3⟩ := cronExpr_exists_match e hm hh (now / 60 + 1)
    have hsome : (searchFirst e.matchesMinute (now / 60 + 1) 1441).isSome :=
      searchFirst_isSome _ 1441 (now / 60 + 1) b hb1 (by omega) hb3
    rcases hfind : searchFirst e.matchesMinute (now / 60 + 1) 1441 with _ | b0
    · rw [hfind] at hsome; simp at hsome
    obtain ⟨hp0, hge0, hlt0, hmin0⟩ := searchFirst_some _ 1441 _ _ hfind
    have hcalc : calculateNextCronRun (some s) now = b0 * 60 := by
      simp [calculateNextCronRun, he, hfind]
    refine ⟨?_, ?_, ?_⟩
    · rw [hcalc]; omega
    · rw [hcalc]
      have h1 : b0 * 60 % 60 = 0 := by omega
      have h2 : b0 * 60 / 60 = b0 := by omega
      simp [CronExpr.matchesAt, h1, h2, hp0]
    · intro u hu1 hu2
      rw [hcalc] at hu2
      by_cases hmod : u % 60 = 0
      · have hc : u / 60 < b0 := by omega
        have hcge : now / 60 + 1 ≤ u / 60 := by omega
        have hfalse := hmin0 (u / 60) hcge hc
        simp [CronExpr.matchesAt, hmod, hfalse]
      · simp [CronExpr.matchesAt, hmod]

theorem find?_set_self (reg : Registry) (n : String) (e : JobEntry)
    (h : reg.any (fun p => p.1 == n) = true) :
    (reg.map (fun p => if p.1 == n then (n, e) else p)).find? (fun p => p.1 == n)
      = some (n, e) := by
  induction reg with
  | nil => simp at h
  | cons p rest ih =>
    by_cases hp : (p.1 == n) = true
    · simp only [List.map_cons, if_pos hp, List.find?_cons]
      simp
    · simp only [List.map_cons, if_neg hp, List.find?_cons]
      rw [Bool.not_eq_true] at hp
      rw [hp]
      apply ih
      simp only [List.any_cons, Bool.or_eq_true] at h
      rcases h with h | h
      · rw [hp] at h; exact absurd h (by simp)
      · exact h

theorem find?_set_ne (reg : Registry) (n m : String) (e : JobEntry) (hne : m ≠ n) :
    (reg.map (fun p => if p.1 == n then (n, e) else p)).find? (fun p => p.1 == m)
      = reg.find? (fun p => p.1 == m) := by
  induction reg with
  | nil => simp
  | cons p rest ih =>
    by_cases hp : (p.1 == n) = true
    · have hp' : p.1 = n := by simpa using hp
      have hpm : (p.1 == m) = false := by
        rw [hp']
        simp
        exact fun heq => hne heq.symm
      have hnm : ((n : String) == m) = false := by
        simp
        exact fun heq => hne heq.symm
      simp only [List.map_cons, if_pos hp, List.find?_cons, hnm, hpm]
      exact ih
    · simp only [List.map_cons, if_neg hp, List.find?_cons]
      by_cases hq : (p.1 == m) = true
      · rw [hq]
      · rw [Bool.not_eq_true] at hq
        rw [hq]
        exact ih

theorem regGet_regSet_self (reg : Registry) (n : String) (e : JobEntry) :
    regGet (regSet reg n e) n = some e := by
  unfold regGet regSet
  by_cases h : reg.any (fun p => p.1 == n) = true
  · rw [if_pos h, find?_set_self reg n e h]
    rfl
  · rw [if_neg h, List.find?_append]
    have hnone : reg.find? (fun p => p.1 == n) = none := by
      rw [List.find?_eq_none]
      intro x hx hpx
      exact h (List.any_eq_true.mpr ⟨x, hx, hpx⟩)
    rw [hnone]
    simp [List.find?_cons]

theorem regGet_regSet_ne (reg : Registry) (n m : String) (e : JobEntry) (hne : m ≠ n) :
    regGet (regSet reg n e) m = regGet reg m := by
  unfold regGet regSet
  by_cases h : reg.any (fun p => p.1 == n) = true
  · rw [if_pos h, find?_set_ne reg n m e hne]
  · rw [if_neg h, List.find?_append]
    have hnm : ((n : String) == m) = false := by
      simp
      exact fun heq => hne heq.symm
    have hsingle : List.find? (fun p => p.1 == m) [(n, e)] = none := by
      simp [List.find?_cons, hnm]
    rw [hsingle]
    simp

theorem regGet_regDelete_self (reg : Registry) (n : String) :
    regGet (regDelete reg n) n = none := by
  unfold regGet regDelete
  have hfind : (reg.filter (fun p => !(p.1 == n))).find? (fun p => p.1 == n) = none := by
    rw [List.find?_eq_none]
    intro x hx
    rw [List.mem_filter] at hx
    simp at hx ⊢
    exact hx.2
  rw [hfind]
  rfl

theorem regGet_regDelete_ne (reg : Registry) (n m : String) (hne : m ≠ n) :
    regGet (regDelete reg n) m = regGet reg m := by
  unfold regGet regDelete
  congr 1
  induction reg with
  | nil => rfl
  | cons p rest ih =>
    by_cases hp : (p.1 == n) = true
    · have hp' : p.1 = n := by simpa using hp
      have hpm : (p.1 == m) = false := by
        rw [hp']
        simp
        exact fun heq => hne heq.symm
      simp only [List.filter_cons, hp, Bool.not_true, if_neg (by simp : ¬false = true),
        List.find?_cons, hpm]
      exact ih
    · rw [Bool.not_eq_true] at hp
      simp only [List.filter_cons, hp, Bool.not_false, if_true, List.find?_cons]
      by_cases hq : (p.1 == m) = true
      · rw [hq]
      · rw [Bool.not_eq_true] at hq
        rw [hq]
        exact ih

theorem getScheduleByName_some_mem {db : DbState} {name : String} {r : DbSchedule}
    (h : getScheduleByName db name = some r) : r ∈ db.rows ∧ r.name = name := by
  unfold getScheduleByName at h
  refine ⟨List.mem_of_find?_eq_some h, ?_⟩
  have := List.find?_some h
  simpa using this

theorem getScheduleByName_none_iff {db : DbState} {name : String} :
    getScheduleByName db name = none ↔ ∀ r ∈ db.rows, r.name ≠ name := by
  unfold getScheduleByName
  rw [List.find?_eq_none]
  simp

theorem rows_unique_name {rows : List DbSchedule}
    (h : (rows.map (fun r => r.name)).Nodup)
    {r s : DbSchedule} (hr : r ∈ rows) (hs : s ∈ rows) (hname : r.name = s.name) :
    r = s :=
  List.inj_on_of_nodup_map h hr hs hname

theorem applyUpd_name (u : ScheduleUpdates) (now : Nat) (r : DbSchedule) :
    (applyUpd u now r).name = r.name := rfl

theorem updateSchedule_rows (db : DbState) (name : String) (u : ScheduleUpdates) (now : Nat) :
    (updateSchedule db name u now).2.rows
      = db.rows.map (fun r => if r.name == name then applyUpd u now r else r) := rfl

theorem updateSchedule_nextId (db : DbState) (name : String) (u : ScheduleUpdates) (now : Nat) :
    (updateSchedule db name u now).2.nextId = db.nextId := rfl

theorem updateSchedule_names (db : DbState) (name : String) (u : ScheduleUpdates) (now : Nat) :
    ((updateSchedule db name u now).2.rows.map (fun r => r.name))
      = db.rows.map (fun r => r.name) := by
  rw [updateSchedule_rows, List.map_map]
  apply List.map_congr_left
  intro r _
  by_cases h : r.name = name <;> simp [h, applyUpd]

theorem createSchedule_rows (db : DbState) (s : NewSchedule) (now : Nat) :
    (createSchedule db s now).2.rows
      = db.rows ++ [⟨db.nextId, s.name, s.type, s.config, s.enabled,
          s.last_run, s.next_run, now, now⟩] := rfl

theorem getScheduleByName_create (db : DbState) (s : NewSchedule) (now : Nat)
    (nm : String) (hnm : s.name = nm) (h : getScheduleByName db nm = none) :
    getScheduleByName (createSchedule db s now).2 nm
      = some ⟨db.nextId, s.name, s.type, s.config, s.enabled,
          s.last_run, s.next_run, now, now⟩ := by
  unfold getScheduleByName at h ⊢
  rw [createSchedule_rows, List.find?_append, h]
  simp [List.find?_cons, hnm]

theorem inv_scheduleJob (st : SchedState) (name : String) (handler now : Nat)
    (hnodup : NamesNodup st) (hdnt : DisabledNoTrigger st) :
    NamesNodup (scheduleJob st name handler now).2 ∧
      DisabledNoTrigger (scheduleJob st name handler now).2 := by
  rcases hEx : regGet st.jobs name with _ | e0 <;>
    rcases hSched : getScheduleByName st.db name with _ | s
  · -- no handler yet, no schedule: default row created, trigger installed
    have hnew := getScheduleByName_create st.db
      ⟨name, .interval, defaultIntervalConfig, true, none,
        some ⟨some (now + 24 * secsPerHour), some .pending, none, some true⟩⟩ now name rfl hSched
    simp only [scheduleJob, hEx, hSched, hnew]
    simp only [eq_self_iff_true, if_true]
    constructor
    · have hnotin : name ∉ st.db.rows.map (fun r => r.name) := by
        intro hmem
        rw [List.mem_map] at hmem
        obtain ⟨r, hr, hrname⟩ := hmem
        exact (getScheduleByName_none_iff.mp hSched r hr) hrname
      unfold NamesNodup
      dsimp only
      simp only [createSchedule_rows, List.map_append]
      simp [List.nodup_append, hnotin]
      exact hnodup
    · unfold DisabledNoTrigger
      intro r hr hren e' hget
      dsimp only at hr hget
      simp only [createSchedule_rows] at hr
      rw [List.mem_append] at hr
      rcases hr with hr | hr
      · have hrn : r.name ≠ name := getScheduleByName_none_iff.mp hSched r hr
        rw [regGet_regSet_ne _ _ _ _ hrn, regGet_regSet_ne _ _ _ _ hrn] at hget
        exact hdnt r hr hren e' hget
      · simp at hr
        rw [hr] at hren
        simp at hren
  · -- no handler yet, schedule exists
    simp only [scheduleJob, hEx, hSched]
    by_cases hen : s.enabled = true
    · simp only [hen, eq_self_iff_true, if_true]
      refine ⟨hnodup, ?_⟩
      unfold DisabledNoTrigger
      intro r hr hren e' hget
      dsimp only at hr hget
      by_cases hrn : r.name = name
      · obtain ⟨hsmem, hsname⟩ := getScheduleByName_some_mem hSched
        have hrs : r = s := rows_unique_name hnodup hr hsmem (by rw [hrn, hsname])
        rw [hrs] at hren
        rw [hen] at hren
        simp at hren
      · rw [regGet_regSet_ne _ _ _ _ hrn, regGet_regSet_ne _ _ _ _ hrn] at hget
        exact hdnt r hr hren e' hget
    · rw [Bool.not_eq_true] at hen
      simp only [hen, Bool.false_eq_true, if_false]
      refine ⟨hnodup, ?_⟩
      unfold DisabledNoTrigger
      intro r hr hren e' hget
      dsimp only at hr hget
      by_cases hrn : r.name = name
      · rw [hrn, regGet_regSet_self] at hget
        injection hget with hg
        rw [← hg]
      · rw [regGet_regSet_ne _ _ _ _ hrn] at hget
        exact hdnt r hr hren e' hget
  · -- handler exists, no schedule: default row created, trigger installed
    have hnew := getScheduleByName_create st.db
      ⟨name, .interval, defaultIntervalConfig, true, none,
        some ⟨some (now + 24 * secsPerHour), some .pending, none, some true⟩⟩ now name rfl hSched
    simp only [scheduleJob, hEx, hSched, hnew]
    simp only [eq_self_iff_true, if_true]
    constructor
    · have hnotin : name ∉ st.db.rows.map (fun r => r.name) := by
        intro hmem
        rw [List.mem_map] at hmem
        obtain ⟨r, hr, hrname⟩ := hmem
        exact (getScheduleByName_none_iff.mp hSched r hr) hrname
      unfold NamesNodup
      dsimp only
      simp only [createSchedule_rows, List.map_append]
      simp [List.nodup_append, hnotin]
      exact hnodup
    · unfold DisabledNoTrigger
      intro r hr hren e' hget
      dsimp only at hr hget
      simp only [createSchedule_rows] at hr
      rw [List.mem_append] at hr
      rcases hr with hr | hr
      · have hrn : r.name ≠ name := getScheduleByName_none_iff.mp hSched r hr
        rw [regGet_regSet_ne _ _ _ _ hrn, regGet_regSet_ne _ _ _ _ hrn] at hget
        exact hdnt r hr hren e' hget
      · simp at hr
        rw [hr] at hren
        simp at hren
  · -- handler exists, schedule exists
    simp only [scheduleJob, hEx, hSched]
    by_cases hen : s.enabled = true
    · simp only [hen, eq_self_iff_true, if_true]
      refine ⟨hnodup, ?_⟩
      unfold DisabledNoTrigger
      intro r hr hren e' hget
      dsimp only at hr hget
      by_cases hrn : r.name = name
      · obtain ⟨hsmem, hsname⟩ := getScheduleByName_some_mem hSched
        have hrs : r = s := rows_unique_name hnodup hr hsmem (by rw [hrn, hsname])
        rw [hrs] at hren
        rw [hen] at hren
        simp at hren
      · rw [regGet_regSet_ne _ _ _ _ hrn, regGet_regSet_ne _ _ _ _ hrn] at hget
        exact hdnt r hr hren e' hget
    · rw [Bool.not_eq_true] at hen
      simp only [hen, Bool.false_eq_true, if_false]
      refine ⟨hnodup, ?_⟩
      unfold DisabledNoTrigger
      intro r hr hren e' hget
      dsimp only at hr hget
      by_cases hrn : r.name = name
      · rw [hrn, regGet_regSet_self] at hget
        injection hget with hg
        rw [← hg]
        have hjob := hdnt r hr hren e0 (by rw [hrn]; exact hEx)
        simpa using hjob
      · rw [regGet_regSet_ne _ _ _ _ hrn] at hget
        exact hdnt r hr hren e' hget

theorem inv_unscheduleJob (st : SchedState) (name : String)
    (hnodup : NamesNodup st) (hdnt : DisabledNoTrigger st) :
    NamesNodup (unscheduleJob st name).2 ∧
      DisabledNoTrigger (unscheduleJob st name).2 := by
  rcases hEx : regGet st.jobs name with _ | e0
  · simp only [unscheduleJob, hEx]
    exact ⟨hnodup, hdnt⟩
  · simp only [unscheduleJob, hEx]
    refine ⟨hnodup, ?_⟩
    unfold DisabledNoTrigger
    intro r hr hren e' hget
    by_cases hrn : r.name = name
    · rw [hrn, regGet_regDelete_self] at hget
      exact absurd hget (by simp)
    · rw [regGet_regDelete_ne _ _ _ hrn] at hget
      exact hdnt r hr hren e' hget

theorem initFold_preserve (rows0 : List DbSchedule)
    (hnodup : (rows0.map (fun r => r.name)).Nodup) :
    ∀ (l : List DbSchedule) (jobs : Registry),
      (∀ s ∈ l, s ∈ rows0) →
      (∀ r ∈ rows0, r.enabled = false → ∀ e, regGet jobs r.name = some e → e.job = none) →
      ∀ r ∈ rows0, r.enabled = false →
        ∀ e, regGet (l.foldl (fun jobs schedule =>
            match regGet jobs schedule.name with
            | some entry =>
              if schedule.enabled then
                regSet jobs schedule.name ⟨some ⟨schedule.type, schedule.config⟩, entry.handler⟩
              else jobs
            | none => jobs) jobs) r.name = some e → e.job = none := by
  intro l
  induction l with
  | nil =>
    intro jobs _ hP r hr hren e hget
    exact hP r hr hren e hget
  | cons s rest ih =>
    intro jobs hsub hP
    rw [List.foldl_cons]
    apply ih
    · intro x hx
      exact hsub x (List.mem_cons_of_mem _ hx)
    · intro r hr hren e hget
      rcases hE : regGet jobs s.name with _ | entry
      · simp only [hE] at hget
        exact hP r hr hren e hget
      · simp only [hE] at hget
        by_cases hsen : s.enabled = true
        · simp only [hsen, eq_self_iff_true, if_true] at hget
          by_cases hrn : r.name = s.name
          · have hsg : s ∈ rows0 := hsub s (List.mem_cons_self _ _)
            have hrs : r = s := rows_unique_name hnodup hr hsg hrn
            rw [hrs] at hren
            rw [hsen] at hren
            exact absurd hren (by simp)
          · rw [regGet_regSet_ne _ _ _ _ hrn] at hget
            exact hP r hr hren e hget
        · rw [Bool.not_eq_true] at hsen
          simp only [hsen, Bool.false_eq_true, if_false] at hget
          exact hP r hr hren e hget

theorem inv_initJobsFromDatabase (st : SchedState)
    (hnodup : NamesNodup st) (hdnt : DisabledNoTrigger st) :
    NamesNodup (initJobsFromDatabase st) ∧
      DisabledNoTrigger (initJobsFromDatabase st) := by
  refine ⟨hnodup, ?_⟩
  unfold DisabledNoTrigger initJobsFromDatabase
  intro r hr hren e hget
  exact initFold_preserve st.db.rows hnodup st.db.rows st.jobs
    (fun s hs => hs) hdnt r hr hren e hget

theorem find?_update (rows : List DbSchedule) (name : String) (u : ScheduleUpdates)
    (now : Nat) :
    (rows.map (fun r => if r.name == name then applyUpd u now r else r)).find?
        (fun r => r.name == name)
      = (rows.find? (fun r => r.name == name)).map (applyUpd u now) := by
  induction rows with
  | nil => rfl
  | cons r rest ih =>
    by_cases hp : (r.name == name) = true
    · rw [List.map_cons, if_pos hp]
      simp only [List.find?_cons]
      have hap : ((applyUpd u now r).name == name) = true := by
        rw [applyUpd_name]
        exact hp
      rw [hap, hp]
      rfl
    · rw [List.map_cons, if_neg hp]
      simp only [List.find?_cons]
      rw [Bool.not_eq_true] at hp
      rw [hp]
      exact ih

theorem getScheduleByName_update_self (db : DbState) (name : String)
    (u : ScheduleUpdates) (now : Nat) :
    getScheduleByName (updateSchedule db name u now).2 name
      = (getScheduleByName db name).map (applyUpd u now) := by
  unfold getScheduleByName
  rw [updateSchedule_rows]
  exact find?_update db.rows name u now

theorem mem_update_rows {db : DbState} {name : String} {u : ScheduleUpdates} {now : Nat}
    {rr : DbSchedule} (h : rr ∈ (updateSchedule db name u now).2.rows) :
    ∃ r ∈ db.rows, rr = if r.name == name then applyUpd u now r else r := by
  rw [updateSchedule_rows] at h
  rw [List.mem_map] at h
  obtain ⟨r, hr, heq⟩ := h
  exact ⟨r, hr, heq.symm⟩

theorem applyUpd_enabled (u : ScheduleUpdates) (now : Nat) (r : DbSchedule) :
    (applyUpd u now r).enabled = u.enabled.getD r.enabled := rfl

theorem namesNodup_mk (db : DbState) (jobs : Registry)
    (h : (db.rows.map (fun r => r.name)).Nodup) :
    NamesNodup ⟨db, jobs⟩ := h

theorem dnt_mk (db : DbState) (jobs : Registry)
    (h : ∀ r ∈ db.rows, r.enabled = false →
      ∀ e, regGet jobs r.name = some e → e.job = none) :
    DisabledNoTrigger ⟨db, jobs⟩ := h

theorem inv_updateJobSchedule (st : SchedState) (name : String) (config : Option JsObj)
    (enabled : Option Bool) (now : Nat)
    (hnodup : NamesNodup st) (hdnt : DisabledNoTrigger st) :
    NamesNodup (updateJobSchedule st name config enabled now).2 ∧
      DisabledNoTrigger (updateJobSchedule st name config enabled now).2 := by
  rcases hSched : getScheduleByName st.db name with _ | schedule
  · simp only [updateJobSchedule, hSched]
    exact ⟨hnodup, hdnt⟩
  · obtain ⟨hsmem, hsname⟩ := getScheduleByName_some_mem hSched
    have hnodup1 : ∀ u : ScheduleUpdates,
        ((updateSchedule st.db name u now).2.rows.map (fun r => r.name)).Nodup := by
      intro u
      rw [updateSchedule_names]
      exact hnodup
    have hrowchar : ∀ u : ScheduleUpdates, ∀ rr ∈ (updateSchedule st.db name u now).2.rows,
        (rr.name = name ∧ rr.enabled = u.enabled.getD schedule.enabled) ∨
        (rr.name ≠ name ∧ rr ∈ st.db.rows) := by
      intro u rr hrr
      obtain ⟨r, hr, heq⟩ := mem_update_rows hrr
      by_cases hp : (r.name == name) = true
      · left
        rw [if_pos hp] at heq
        have hrname : r.name = name := by simpa using hp
        have hrs : r = schedule := rows_unique_name hnodup hr hsmem (by rw [hrname, hsname])
        subst heq
        constructor
        · rw [applyUpd_name]
          exact hrname
        · rw [applyUpd_enabled, hrs]
      · right
        rw [if_neg hp] at heq
        subst heq
        exact ⟨by simpa using hp, hr⟩
    simp only [updateJobSchedule, hSched]
    rcases hJD : regGet st.jobs name with _ | jobData
    · simp only [hJD]
      refine ⟨namesNodup_mk _ _ (hnodup1 _), dnt_mk _ _ ?_⟩
      intro rr hrr hren e hget
      rcases hrowchar _ rr hrr with ⟨hn, _⟩ | ⟨hn, hmem⟩
      · rw [hn, hJD] at hget
        exact absurd hget (by simp)
      · exact hdnt rr hmem hren e hget
    · simp only [hJD]
      by_cases hc1 : schedule.enabled = true ∧ (enabled = none ∨ enabled = some true)
      · rw [if_pos hc1]
        rw [getScheduleByName_update_self, hSched]
        simp only [Option.map_some']
        refine ⟨namesNodup_mk _ _ (hnodup1 _), dnt_mk _ _ ?_⟩
        intro rr hrr hren e hget
        rcases hrowchar _ rr hrr with ⟨hn, hen⟩ | ⟨hn, hmem⟩
        · simp only [] at hen
          rcases hc1 with ⟨hsen, hev⟩
          rcases hev with hev | hev
          · rw [hev] at hen
            simp at hen
            rw [hsen, hren] at hen
            exact absurd hen (by simp)
          · rw [hev] at hen
            simp at hen
            rw [hren] at hen
            exact absurd hen (by simp)
        · rw [regGet_regSet_ne _ _ _ _ hn] at hget
          exact hdnt rr hmem hren e hget
      · rw [if_neg hc1]
        by_cases hc2 : ¬(schedule.enabled = true) ∧ enabled = some true
        · rw [if_pos hc2]
          rw [getScheduleByName_update_self, hSched]
          simp only [Option.map_some']
          refine ⟨namesNodup_mk _ _ (hnodup1 _), dnt_mk _ _ ?_⟩
          intro rr hrr hren e hget
          rcases hrowchar _ rr hrr with ⟨hn, hen⟩ | ⟨hn, hmem⟩
          · simp only [] at hen
            rw [hc2.2] at hen
            simp at hen
            rw [hren] at hen
            exact absurd hen (by simp)
          · rw [regGet_regSet_ne _ _ _ _ hn] at hget
            exact hdnt rr hmem hren e hget
        · rw [if_neg hc2]
          by_cases hc3 : schedule.enabled = true ∧ enabled = some false
          · rw [if_pos hc3]
            refine ⟨namesNodup_mk _ _ (hnodup1 _), dnt_mk _ _ ?_⟩
            intro rr hrr hren e hget
            rcases hrowchar _ rr hrr with ⟨hn, _⟩ | ⟨hn, hmem⟩
            · rw [hn, regGet_regSet_self] at hget
              injection hget with hg
              rw [← hg]
            · rw [regGet_regSet_ne _ _ _ _ hn] at hget
              exact hdnt rr hmem hren e hget
          · rw [if_neg hc3]
            have hsdis : schedule.enabled = false := by
              by_cases hsen : schedule.enabled = true
              · exfalso
                rcases henv : enabled with _ | b
                · exact hc1 ⟨hsen, Or.inl henv⟩
                · rcases b with _ | _
                  · exact hc3 ⟨hsen, henv⟩
                  · exact hc1 ⟨hsen, Or.inr henv⟩
              · rw [Bool.not_eq_true] at hsen
                exact hsen
            refine ⟨namesNodup_mk _ _ (hnodup1 _), dnt_mk _ _ ?_⟩
            intro rr hrr hren e hget
            rcases hrowchar _ rr hrr with ⟨hn, _⟩ | ⟨hn, hmem⟩
            · rw [hn] at hget
              have := hdnt schedule hsmem hsdis e (by rw [hsname]; exact hget)
              exact this
            · exact hdnt rr hmem hren e hget

theorem sched_inv_reachable (st : SchedState) (h : Reachable st) :
    NamesNodup st ∧ DisabledNoTrigger st := by
  induction h with
  | init =>
    constructor
    · simp [NamesNodup, SchedState.initial]
    · exact fun r hr => absurd hr (List.not_mem_nil r)
  | schedule st name handler now _ ih =>
    exact inv_scheduleJob st name handler now ih.1 ih.2
  | update st name config enabled now _ ih =>
    exact inv_updateJobSchedule st name config enabled now ih.1 ih.2
  | unschedule st name _ ih =>
    exact inv_unscheduleJob st name ih.1 ih.2
  | initdb st _ ih =>
    exact inv_initJobsFromDatabase st ih.1 ih.2

/-- Claim C8: in every state reachable by any sequence of the scheduler
operations (`scheduleJob`, `updateJobSchedule`, `unscheduleJob`,
`initJobsFromDatabase`), a job name whose persisted schedule has
`enabled=false` has no active trigger: its registry entry either is absent
or holds a null job. -/
theorem scheduler_disabled_no_trigger (st : SchedState) (h : Reachable st) :
    ∀ r ∈ st.db.rows, r.enabled = false →
      ∀ e, regGet st.jobs r.name = some e → e.job = none :=
  (sched_inv_reachable st h).2

/-- Witness for C8: register a handler (auto-creating an enabled default
schedule and a trigger), then disable the schedule; the resulting reachable
state holds a disabled row whose registry entry has a null job. -/
theorem scheduler_disabled_no_trigger_witness :
    (⟨1, "a", .interval, defaultIntervalConfig, false, none,
        some ⟨some 86405, some .pending, none, some true⟩, 0, 5⟩ : DbSchedule) ∈
      ((updateJobSchedule (scheduleJob SchedState.initial "a" 7 0).2
          "a" none (some false) 5).2).db.rows ∧
    (⟨1, "a", .interval, defaultIntervalConfig, false, none,
        some ⟨some 86405, some .pending, none, some true⟩, 0, 5⟩ : DbSchedule).enabled
      = false ∧
    (⟨none, 7⟩ : JobEntry).job = none :=
  ⟨by decide, by decide,
    scheduler_disabled_no_trigger
      ((updateJobSchedule (scheduleJob SchedState.initial "a" 7 0).2
          "a" none (some false) 5).2)
      (Reachable.update _ _ _ _ _ (Reachable.schedule _ _ _ _ Reachable.init))
      ⟨1, "a", .interval, defaultIntervalConfig, false, none,
        some ⟨some 86405, some .pending, none, some true⟩, 0, 5⟩
      (by decide) (by decide) ⟨none, 7⟩ (by decide)⟩

/-- Claim C2: for every valid interval config with at least one unit set,
the computed next run equals the current instant with each present unit
added sequentially in the order day, hour, minute, second, an absent unit
contributing zero; in particular config with hours 1 and minutes 30 yields
exactly now + 90 minutes. -/
theorem interval_next_run_additive :
    (∀ (c : IntervalConfig) (now : Nat),
      (c.days ≠ none ∨ c.hours ≠ none ∨ c.minutes ≠ none ∨ c.seconds ≠ none) →
      intervalNextRun c now
        = now + (c.days.getD 0) * secsPerDay + (c.hours.getD 0) * secsPerHour
            + (c.minutes.getD 0) * secsPerMinute + c.seconds.getD 0) ∧
    ∀ now : Nat,
      intervalNextRun ⟨none, some 1, some 30, none, none⟩ now
        = now + 90 * secsPerMinute := by
  constructor
  · intro c now _
    rcases c with ⟨d, h, m, s, ri⟩
    rcases d with _ | d <;> rcases h with _ | h <;> rcases m with _ | m <;>
      rcases s with _ | s <;>
      simp only [intervalNextRun, Option.getD_some, Option.getD_none,
        secsPerDay, secsPerHour, secsPerMinute] <;>
      first
      | (split_ifs <;> omega)
      | omega
  · intro now
    simp only [intervalNextRun, secsPerHour, secsPerMinute]
    norm_num

/-- Witness for C2 at a concrete config and instant. -/
theorem interval_next_run_additive_witness :
    intervalNextRun ⟨none, some 2, none, some 45, none⟩ 100
      = 100 + 0 * secsPerDay + 2 * secsPerHour + 0 * secsPerMinute + 45 :=
  interval_next_run_additive.1 ⟨none, some 2, none, some 45, none⟩ 100 (by decide)

/-- Claim C3: next-run computation for a cron schedule never throws (it is
a total function of the input string): a parseable expression yields the
first occurrence strictly after now, an unparseable one yields now + 24
hours. -/
theorem cron_next_run_total (s : String) (now : Nat) :
    (cronParse s = none →
      calculateNextCronRun (some s) now = now + 24 * secsPerHour) ∧
    ∀ e, cronParse s = some e →
      now < calculateNextCronRun (some s) now ∧
      e.matchesAt (calculateNextCronRun (some s) now) = true ∧
      ∀ u, now < u → u < calculateNextCronRun (some s) now →
        e.matchesAt u = false :=
  calcNextCronRun_char s now

/-- Witness for C3: an unparseable expression falls back to +24h, and a
parseable one returns a matching instant strictly after now. -/
theorem cron_next_run_total_witness :
    calculateNextCronRun (some "not a cron") 50 = 50 + 24 * secsPerHour ∧
    1000 < calculateNextCronRun (some "30 2 * * *") 1000 ∧
    CronExpr.matchesAt ⟨some 30, some 2⟩
      (calculateNextCronRun (some "30 2 * * *") 1000) = true :=
  ⟨(cron_next_run_total "not a cron" 50).1 (by decide),
   ((cron_next_run_total "30 2 * * *" 1000).2 ⟨some 30, some 2⟩ (by decide)).1,
   ((cron_next_run_total "30 2 * * *" 1000).2 ⟨some 30, some 2⟩ (by decide)).2.1⟩

/-- Claim C9: for a name with no matching schedule row, the store's
updateSchedule returns false (zero rows updated) without raising an error,
leaving the store unchanged. -/
theorem update_missing_row_noop (db : DbState) (name : String)
    (u : ScheduleUpdates) (now : Nat) (h : ∀ r ∈ db.rows, r.name ≠ name) :
    updateSchedule db name u now = (false, db) := by
  unfold updateSchedule
  have hcount : db.rows.countP (fun r => r.name == name) = 0 := by
    rw [List.countP_eq_zero]
    intro r hr
    simpa using h r hr
  have hmap : db.rows.map (fun r => if r.name == name then applyUpd u now r else r)
      = db.rows := by
    have hcongr : ∀ r ∈ db.rows,
        (if r.name == name then applyUpd u now r else r) = id r := by
      intro r hr
      have hne : ¬ (r.name == name) = true := by
        simp
        exact h r hr
      rw [if_neg hne]
      rfl
    rw [List.map_congr_left hcongr, List.map_id]
  rw [hcount, hmap]
  rfl

/-- Witness for C9 on a store holding one differently-named row. -/
theorem update_missing_row_noop_witness :
    updateSchedule ⟨[⟨1, "other", .interval, JsObj.empty, true, none, none, 0, 0⟩], 2⟩
        "ghost" ScheduleUpdates.empty 3
      = (false, ⟨[⟨1, "other", .interval, JsObj.empty, true, none, none, 0, 0⟩], 2⟩) :=
  update_missing_row_noop
    ⟨[⟨1, "other", .interval, JsObj.empty, true, none, none, 0, 0⟩], 2⟩
    "ghost" ScheduleUpdates.empty 3 (by decide)

/-- Claim C4 (amended): a scheduled firing whose handler throws persists
last_run with status failed and an error field equal to the thrown
message (which may be empty), and does not write next_run — the stored
next_run of every row is identical before and after. -/
theorem failed_run_frame (type : ScheduleType) (config : JsObj) (name : String)
    (msg : String) (now : Nat) (db : DbState) :
    runScheduledTask type config name (.error msg) now db
      = (updateSchedule db name
          ⟨none, none, some (some ⟨some now, some .failed, some msg, none⟩),
           none, none⟩ now).2 ∧
    (runScheduledTask type config name (.error msg) now db).rows.map
        (fun r => r.next_run)
      = db.rows.map (fun r => r.next_run) ∧
    (runScheduledTask type config name (.error msg) now db).rows
      = db.rows.map (fun r => if r.name == name then
          { r with last_run := some ⟨some now, some .failed, some msg, none⟩,
                   updated_at := now } else r) := by
  have hrows : (runScheduledTask type config name (.error msg) now db).rows
      = db.rows.map (fun r => if r.name == name then
          { r with last_run := some ⟨some now, some .failed, some msg, none⟩,
                   updated_at := now } else r) := by
    show (updateSchedule db name _ now).2.rows = _
    rw [updateSchedule_rows]
    apply List.map_congr_left
    intro r _
    by_cases hp : (r.name == name) = true
    · rw [if_pos hp, if_pos hp]
      rfl
    · rw [if_neg hp, if_neg hp]
  refine ⟨rfl, ?_, hrows⟩
  rw [hrows, List.map_map]
  apply List.map_congr_left
  intro r _
  by_cases hp : r.name = name
  · simp [hp]
  · simp [hp]

/-- Counterexample to C4 as stated: a handler throwing an error whose
message is the empty string yields last_run with status failed but an
empty error string, so the persisted error field is not non-empty. -/
theorem failed_run_empty_error_counterexample :
    (getScheduleByName
        (runScheduledTask .interval JsObj.empty "j" (.error "") 5
          ⟨[⟨1, "j", .interval, JsObj.empty, true, none,
             some ⟨some 99, some .pending, none, some true⟩, 0, 0⟩], 2⟩)
        "j").map (fun r => r.last_run)
      = some (some ⟨some 5, some .failed, some "", none⟩) ∧
    failedWithNonEmptyError
        (runScheduledTask .interval JsObj.empty "j" (.error "") 5
          ⟨[⟨1, "j", .interval, JsObj.empty, true, none,
             some ⟨some 99, some .pending, none, some true⟩, 0, 0⟩], 2⟩)
        "j" = false := by
  constructor
  · decide
  · decide

/-- Claim C7: for every name with a registered handler, runJobNow invokes
the handler, returns its success, persists last_run with the
completed/failed outcome (error message on failure), leaves the registry
untouched, and never writes next_run — every stored next_run is identical
before and after the manual run. -/
theorem run_job_now_spec (st : SchedState) (name : String) (entry : JobEntry)
    (outcome : Except String Unit) (now : Nat)
    (h : regGet st.jobs name = some entry) :
    (runJobNow st name outcome now).1 = outcomeOk outcome ∧
    (runJobNow st name outcome now).2.jobs = st.jobs ∧
    (runJobNow st name outcome now).2.db.rows.map (fun r => r.next_run)
      = st.db.rows.map (fun r => r.next_run) ∧
    (runJobNow st name outcome now).2.db.rows
      = st.db.rows.map (fun r => if r.name == name then
          { r with last_run := some ⟨some now, some (outcomeStatus outcome),
              outcomeError outcome, none⟩, updated_at := now } else r) := by
  simp only [runJobNow, h]
  have hrows : (updateSchedule st.db name
      ⟨none, none,
       some (some ⟨some now, some (outcomeStatus outcome), outcomeError outcome, none⟩),
       none, none⟩ now).2.rows
      = st.db.rows.map (fun r => if r.name == name then
          { r with last_run := some ⟨some now, some (outcomeStatus outcome),
              outcomeError outcome, none⟩, updated_at := now } else r) := by
    rw [updateSchedule_rows]
    apply List.map_congr_left
    intro r _
    by_cases hp : (r.name == name) = true
    · rw [if_pos hp, if_pos hp]
      rfl
    · rw [if_neg hp, if_neg hp]
  refine ⟨by trivial, by trivial, ?_, hrows⟩
  rw [hrows, List.map_map]
  apply List.map_congr_left
  intro r _
  by_cases hp : r.name = name
  · simp [hp]
  · simp [hp]

/-- Witness for C7: a manual run with a registered handler whose
invocation fails. -/
theorem run_job_now_spec_witness :
    (runJobNow ⟨⟨[⟨1, "job", .interval, JsObj.empty, true, none,
        some ⟨some 42, some .pending, none, some true⟩, 0, 0⟩], 2⟩,
        [("job", ⟨none, 3⟩)]⟩ "job" (.error "boom") 7).1
      = outcomeOk (.error "boom") ∧
    (runJobNow ⟨⟨[⟨1, "job", .interval, JsObj.empty, true, none,
        some ⟨some 42, some .pending, none, some true⟩, 0, 0⟩], 2⟩,
        [("job", ⟨none, 3⟩)]⟩ "job" (.error "boom") 7).2.db.rows.map
        (fun r => r.next_run)
      = [some ⟨some 42, some .pending, none, some true⟩] :=
  ⟨(run_job_now_spec _ "job" ⟨none, 3⟩ (.error "boom") 7 (by decide)).1,
   (run_job_now_spec ⟨⟨[⟨1, "job", .interval, JsObj.empty, true, none,
        some ⟨some 42, some .pending, none, some true⟩, 0, 0⟩], 2⟩,
        [("job", ⟨none, 3⟩)]⟩ "job" ⟨none, 3⟩ (.error "boom") 7 (by decide)).2.2.1⟩

theorem countP_create_self (db : DbState) (s : NewSchedule) (now : Nat)
    (h : ∀ r ∈ db.rows, r.name ≠ s.name) :
    ((createSchedule db s now).2.rows.countP (fun r => r.name == s.name)) = 1 := by
  rw [createSchedule_rows, List.countP_append]
  have h0 : db.rows.countP (fun r => r.name == s.name) = 0 := by
    rw [List.countP_eq_zero]
    intro r hr
    simpa using h r hr
  rw [h0]
  simp [List.countP_cons]

/-- Claim C1: for a job name with no existing schedule row, scheduleJob
returns true, creates exactly one schedule row — type interval, config the
default 24-hour interval, enabled, last_run null, next_run 24 hours after
now with status pending and estimated true — and installs an active
trigger for that name in the same call. -/
theorem schedule_job_creates_default (st : SchedState) (name : String)
    (handler now : Nat) (h : getScheduleByName st.db name = none) :
    (scheduleJob st name handler now).1 = true ∧
    ((scheduleJob st name handler now).2.db.rows.countP
      (fun r => r.name == name)) = 1 ∧
    getScheduleByName (scheduleJob st name handler now).2.db name
      = some ⟨st.db.nextId, name, .interval, defaultIntervalConfig, true, none,
          some ⟨some (now + 24 * secsPerHour), some .pending, none, some true⟩,
          now, now⟩ ∧
    regGet (scheduleJob st name handler now).2.jobs name
      = some ⟨some ⟨.interval, defaultIntervalConfig⟩, handler⟩ := by
  have hnew := getScheduleByName_create st.db
    ⟨name, .interval, defaultIntervalConfig, true, none,
      some ⟨some (now + 24 * secsPerHour), some .pending, none, some true⟩⟩
    now name rfl h
  have hcnt := countP_create_self st.db
    ⟨name, .interval, defaultIntervalConfig, true, none,
      some ⟨some (now + 24 * secsPerHour), some .pending, none, some true⟩⟩
    now (fun r hr => getScheduleByName_none_iff.mp h r hr)
  rcases hEx : regGet st.jobs name with _ | e0 <;>
    simp only [scheduleJob, hEx, h, hnew] <;>
    simp only [eq_self_iff_true, if_true] <;>
    exact ⟨by trivial, hcnt, hnew, regGet_regSet_self _ _ _⟩

/-- Witness for C1: registering a handler on the fresh service. -/
theorem schedule_job_creates_default_witness :
    getScheduleByName (scheduleJob SchedState.initial "sync" 5 100).2.db "sync"
      = some ⟨1, "sync", .interval, defaultIntervalConfig, true, none,
          some ⟨some (100 + 24 * secsPerHour), some .pending, none, some true⟩,
          100, 100⟩ ∧
    regGet (scheduleJob SchedState.initial "sync" 5 100).2.jobs "sync"
      = some ⟨some ⟨.interval, defaultIntervalConfig⟩, 5⟩ :=
  ⟨(schedule_job_creates_default SchedState.initial "sync" 5 100 (by decide)).2.2.1,
   (schedule_job_creates_default SchedState.initial "sync" 5 100 (by decide)).2.2.2⟩

/-- Claim C6 (amended): creating a schedule through the administrative
create entry (no row of that name exists) persists the row with the
supplied type, config and enabled flag but with last_run and next_run both
null — no next_run is computed or stored on the create path. -/
theorem post_create_null_next_run (st : SchedState) (body : ScheduleConfigBody)
    (now : Nat) (h : getScheduleByName st.db body.name = none) :
    postSchedulesRoute st body now
      = (.ok "Schedule created",
         ⟨⟨st.db.rows ++ [⟨st.db.nextId, body.name, body.type, body.config,
             body.enabled, none, none, now, now⟩], st.db.nextId + 1⟩,
          st.jobs⟩) := by
  simp only [postSchedulesRoute, h]
  rfl

/-- Witness for C6 (amended): creating a cron schedule on the fresh
service stores `next_run = null`. -/
theorem post_create_null_next_run_witness :
    postSchedulesRoute SchedState.initial
        ⟨"cleanup", .cron, JsObj.ofCron ⟨some "0 * * * *"⟩, true⟩ 0
      = (.ok "Schedule created",
         ⟨⟨[⟨1, "cleanup", .cron, JsObj.ofCron ⟨some "0 * * * *"⟩, true,
             none, none, 0, 0⟩], 2⟩, []⟩) :=
  post_create_null_next_run SchedState.initial
    ⟨"cleanup", .cron, JsObj.ofCron ⟨some "0 * * * *"⟩, true⟩ 0 (by decide)

/-- Counterexample to C6 as stated: creating name cleanup with cron
expression hourly at minute zero stores a row whose next_run is null, even
though the top of the next hour (which the claim says should be stored) is
computable and equals 3600 from instant 0. -/
theorem post_create_cron_counterexample :
    (getScheduleByName
        (postSchedulesRoute SchedState.initial
          ⟨"cleanup", .cron, JsObj.ofCron ⟨some "0 * * * *"⟩, true⟩ 0).2.db
        "cleanup").map (fun r => r.next_run)
      = some none ∧
    calculateNextCronRun (some "0 * * * *") 0 = 3600 := by
  constructor
  · decide
  · decide

/-- Claim C5 (amended): the DELETE /schedules/:name route removes the
store row and removes the whole registry entry — handler reference
included — so a subsequent runJobNow on that name returns false, invokes
nothing, changes nothing, and does not recreate the row. -/
theorem delete_schedule_drops_handler (st : SchedState) (name : String)
    (row : DbSchedule) (entry : JobEntry)
    (hrow : getScheduleByName st.db name = some row)
    (hentry : regGet st.jobs name = some entry) :
    ((deleteScheduleRoute st name).2.db.rows.countP (fun r => r.name == name)) = 0 ∧
    regGet (deleteScheduleRoute st name).2.jobs name = none ∧
    ∀ (outcome : Except String Unit) (now2 : Nat),
      runJobNow (deleteScheduleRoute st name).2 name outcome now2
        = (false, (deleteScheduleRoute st name).2) := by
  obtain ⟨hmem, hname⟩ := getScheduleByName_some_mem hrow
  have hpos : 0 < st.db.rows.countP (fun r => r.name == name) := by
    rw [List.countP_pos_iff]
    exact ⟨row, hmem, by simpa using hname⟩
  have hres : (decide (0 < st.db.rows.countP (fun r => r.name == name))) = true := by
    simpa using hpos
  simp only [deleteScheduleRoute, hrow, unscheduleJob, hentry, deleteSchedule, hres,
    if_true]
  refine ⟨?_, ?_, ?_⟩
  · rw [List.countP_eq_zero]
    intro r hr
    rw [List.mem_filter] at hr
    have := hr.2
    simpa using this
  · exact regGet_regDelete_self _ _
  · intro outcome now2
    simp only [runJobNow, regGet_regDelete_self]

/-- Witness for C5 (amended): register a handler (auto-creating the
schedule), delete through the route, observe the dropped entry and the
failing manual run. -/
theorem delete_schedule_drops_handler_witness :
    regGet (deleteScheduleRoute (scheduleJob SchedState.initial "job1" 7 0).2
        "job1").2.jobs "job1" = none ∧
    runJobNow (deleteScheduleRoute (scheduleJob SchedState.initial "job1" 7 0).2
        "job1").2 "job1" (.ok ()) 10
      = (false, (deleteScheduleRoute (scheduleJob SchedState.initial "job1" 7 0).2
          "job1").2) :=
  ⟨(delete_schedule_drops_handler (scheduleJob SchedState.initial "job1" 7 0).2
      "job1"
      ⟨1, "job1", .interval, defaultIntervalConfig, true, none,
        some ⟨some (0 + 24 * secsPerHour), some .pending, none, some true⟩, 0, 0⟩
      ⟨some ⟨.interval, defaultIntervalConfig⟩, 7⟩
      (by decide) (by decide)).2.1,
   (delete_schedule_drops_handler (scheduleJob SchedState.initial "job1" 7 0).2
      "job1"
      ⟨1, "job1", .interval, defaultIntervalConfig, true, none,
        some ⟨some (0 + 24 * secsPerHour), some .pending, none, some true⟩, 0, 0⟩
      ⟨some ⟨.interval, defaultIntervalConfig⟩, 7⟩
      (by decide) (by decide)).2.2 (.ok ()) 10⟩

/-- Counterexample to C5 as stated: after deleting through the route, the
handler reference is GONE from the registry (the claim says it remains),
and a subsequent runJobNow returns false without recording anything (the
claim says it still succeeds). -/
theorem delete_then_run_counterexample :
    regGet ((deleteScheduleRoute (scheduleJob SchedState.initial "job1" 7 0).2
        "job1").2).jobs "job1" = none ∧
    runJobNow ((deleteScheduleRoute (scheduleJob SchedState.initial "job1" 7 0).2
        "job1").2) "job1" (.ok ()) 10
      = (false, (deleteScheduleRoute (scheduleJob SchedState.initial "job1" 7 0).2
          "job1").2) ∧
    ((deleteScheduleRoute (scheduleJob SchedState.initial "job1" 7 0).2
        "job1").2).db.rows = [] := by
  refine ⟨?_, ?_, ?_⟩
  · decide
  · decide
  · decide

/-- Claim C10 (amended): getAllSchedules never throws — a store read
failure yields the empty list and a row with an unknown type is silently
omitted; but a row whose JSON fields fail to parse is NOT omitted: it is
returned with fallback values (empty config object, empty run info). -/
theorem get_all_schedules_robust :
    (∀ err : String, getAllSchedules (.error err) = []) ∧
    (∀ rows : List RawScheduleRow,
      getAllSchedules (.ok rows) = rows.filterMap parseScheduleRow) ∧
    (∀ row : RawScheduleRow, row.type ≠ "interval" → row.type ≠ "cron" →
      parseScheduleRow row = none) ∧
    (∀ row : RawScheduleRow, row.type = "interval" ∨ row.type = "cron" →
      (parseScheduleRow row).isSome) ∧
    (∀ row : RawScheduleRow, ∀ raw : String, row.config = .strBad raw →
      ∀ s, parseScheduleRow row = some s → s.config = JsObj.empty) := by
  refine ⟨fun _ => rfl, fun _ => rfl, ?_, ?_, ?_⟩
  · intro row hti htc
    unfold parseScheduleRow
    split
    · exact absurd (by assumption) hti
    · exact absurd (by assumption) htc
    · rfl
  · intro row hty
    unfold parseScheduleRow
    rcases hty with hty | hty <;> split <;> simp_all
  · intro row raw hcfg s hs
    unfold parseScheduleRow at hs
    split at hs <;> try injection hs with hs
    · rw [← hs]
      simp [hcfg, readJsonCol]
    · rw [← hs]
      simp [hcfg, readJsonCol]
    · exact absurd hs (by simp)

/-- Witness for C10 (amended): a read error yields the empty list, and an
unknown-type row is dropped while a well-formed row is kept. -/
theorem get_all_schedules_robust_witness :
    getAllSchedules (.error "connection lost") = [] ∧
    parseScheduleRow ⟨1, "x", "weekly", .already JsObj.empty, true, none, none, 0, 0⟩
      = none ∧
    (parseScheduleRow ⟨2, "y", "cron", .already JsObj.empty, true, none, none, 0, 0⟩).isSome
      = true :=
  ⟨get_all_schedules_robust.1 "connection lost",
   get_all_schedules_robust.2.2.1
     ⟨1, "x", "weekly", .already JsObj.empty, true, none, none, 0, 0⟩
     (by decide) (by decide),
   get_all_schedules_robust.2.2.2.1
     ⟨2, "y", "cron", .already JsObj.empty, true, none, none, 0, 0⟩
     (Or.inr rfl)⟩

/-- Counterexample to C10 as stated: a row whose config string fails
JSON.parse is NOT omitted from the result — it is returned with the config
replaced by the empty-object fallback. -/
theorem get_all_schedules_keeps_bad_json :
    getAllSchedules
        (.ok [⟨1, "j", "interval", .strBad "not json", true, none, none, 0, 0⟩])
      = [⟨1, "j", .interval, JsObj.empty, true, none, none, 0, 0⟩] ∧
    getAllSchedules
        (.ok [⟨1, "j", "interval", .strBad "not json", true, none, none, 0, 0⟩])
      ≠ [] := by
  constructor
  · decide
  · decide
